import Mathlib

/-!
Shallow embedding of the DiskANN-demo notebooks
(`1-Word_Embeddings_Comparison.ipynb` and the vector-search notebook):
the corpus tokenizer, the one-hot encoder, the embedding tables, and the
vector-index harness, with the spec's testable properties proved about them.

Numeric values (numpy float64/float32) are modelled as exact rationals `ℚ`;
the properties proved here (basis-vector structure, dot products, shapes,
ordering) are exact-arithmetic facts.
-/

namespace DiskANNDemo

/-! ## CorpusTokenizer

Source: `tokenized_sentences = [sentence.lower().split() for sentence in sentences]`
and `vocabulary = sorted(set(word for sentence in tokenized_sentences for word in sentence))`.
-/

/-- Whitespace characters recognised by Python `str.split()` on the ASCII
range: space, tab, newline, carriage return, vertical tab, form feed. -/
def pyIsSpace (c : Char) : Bool :=
  c = ' ' || c = '\t' || c = '\n' || c = '\r' || c = '\x0b' || c = '\x0c'

/-- Python `str.lower()` on a single character, restricted to the ASCII case
mapping the corpus exercises: `A`-`Z` map to `a`-`z` (code point + 32), every
other character is unchanged. -/
def pyLowerChar (c : Char) : Char :=
  if 'A' ≤ c ∧ c ≤ 'Z' then Char.ofNat (c.toNat + 32) else c

/-- Python `sentence.lower()`: characterwise lowering. -/
def pyLower (s : String) : String :=
  ⟨s.data.map pyLowerChar⟩

/-- Scanner behind Python `str.split()` with no argument: `acc` holds the
characters of the current word in reverse; runs of whitespace separate words
and empty fragments are discarded. -/
def splitCore : List Char → List Char → List (List Char)
  | [], acc => if acc.isEmpty then [] else [acc.reverse]
  | c :: cs, acc =>
    if pyIsSpace c then
      if acc.isEmpty then splitCore cs [] else acc.reverse :: splitCore cs []
    else
      splitCore cs (c :: acc)

/-- Python `s.split()` (no separator): whitespace-separated words, empty
fragments dropped. -/
def pySplit (s : String) : List String :=
  (splitCore s.data []).map String.mk

/-- Source line: `tokenized_sentences = [sentence.lower().split() for sentence in sentences]`. -/
def tokenized_sentences (sentences : List String) : List (List String) :=
  sentences.map (fun sentence => pySplit (pyLower sentence))

/-- Decidability of the lexicographic order on strings by structural
comparison of their character lists; used instead of the default
iterator-based instance so that concrete vocabularies evaluate inside the
kernel. -/
def decStrLe : DecidableRel (α := String) (· ≤ ·) := fun s t =>
  decidable_of_iff (s.toList ≤ t.toList) String.le_iff_toList_le.symm

/-- Source line:
`vocabulary = sorted(set(word for sentence in tokenized_sentences for word in sentence))`.
`set(...)` of the flattened token stream is its list of distinct words
(`dedup`), and `sorted` presents them in ascending lexicographic (code-point)
order, the order Python's `sorted` uses on strings. -/
def vocabulary (sentences : List String) : List String :=
  @List.insertionSort String (· ≤ ·) decStrLe ((tokenized_sentences sentences).flatten.dedup)

/-- The vocabulary is sorted in ascending lexicographic order. -/
theorem vocabulary_sorted (sentences : List String) :
    List.Sorted (· ≤ ·) (vocabulary sentences) :=
  @List.sorted_insertionSort String (· ≤ ·) decStrLe inferInstance inferInstance _

/-- The vocabulary is a permutation of the distinct words of the corpus. -/
theorem vocabulary_perm (sentences : List String) :
    (vocabulary sentences).Perm (tokenized_sentences sentences).flatten.dedup :=
  @List.perm_insertionSort String (· ≤ ·) decStrLe _

/-- The vocabulary has no duplicate entries. -/
theorem vocabulary_nodup (sentences : List String) :
    (vocabulary sentences).Nodup :=
  (vocabulary_perm sentences).nodup_iff.mpr ((tokenized_sentences sentences).flatten.nodup_dedup)

/-- Membership in the vocabulary is exactly occurrence in some tokenized
sentence. -/
theorem mem_vocabulary_iff (sentences : List String) (w : String) :
    w ∈ vocabulary sentences ↔ ∃ ts ∈ tokenized_sentences sentences, w ∈ ts := by
  rw [(vocabulary_perm sentences).mem_iff, List.mem_dedup, List.mem_flatten]

/-! ## One-hot encoding

Source: `one_hot_vectors = {word: np.eye(len(vocabulary))[i] for i, word in enumerate(vocabulary)}`.
-/

/-- Row `i` of `np.eye n`: `1` at position `i`, `0` elsewhere (exact
rationals standing for numpy's floats). -/
def eyeRow (n i : Nat) : List ℚ :=
  (List.range n).map (fun j => if j = i then 1 else 0)

/-- Source line:
`one_hot_vectors = {word: np.eye(len(vocabulary))[i] for i, word in enumerate(vocabulary)}`,
the dict modelled as the association list built in iteration order. -/
def one_hot_vectors (vocab : List String) : List (String × List ℚ) :=
  vocab.enum.map (fun p => (p.2, eyeRow vocab.length p.1))

/-- `np.dot` on two vectors of equal length. -/
def dot (v w : List ℚ) : ℚ :=
  (List.zipWith (· * ·) v w).sum

/-- Corpus of the spec's embedding end-to-end scenario (the first two of the
notebook's example sentences). -/
def demo_corpus : List String :=
  ["I love natural language processing", "Deep learning is a key technology for AI"]

example : pySplit (pyLower "Deep learning is a key technology for AI") =
    ["deep", "learning", "is", "a", "key", "technology", "for", "ai"] := by decide

example : (vocabulary demo_corpus).length = 13 := by decide

/-- Looking a word up in the association list built by enumerating a word
list (a Python dict comprehension over `enumerate`) finds the value computed
at the word's first index. -/
theorem lookup_enumFrom_map {β : Type} (f : Nat → β) (l : List String) :
    ∀ (n : Nat) (w : String), w ∈ l →
      List.lookup w ((l.enumFrom n).map (fun p => (p.2, f p.1))) =
        some (f (n + l.indexOf w)) := by
  induction l with
  | nil => intro n w h; cases h
  | cons a l ih =>
    intro n w h
    rcases eq_or_ne w a with rfl | hne
    · simp [List.enumFrom, List.lookup, List.indexOf_cons_self]
    · have hl : w ∈ l := (List.mem_cons.mp h).resolve_left hne
      have harith : n + 1 + l.indexOf w = n + (l.indexOf w).succ := by omega
      have hba : (w == a) = false := beq_eq_false_iff_ne.mpr hne
      simp [List.enumFrom, List.lookup, hba, List.indexOf_cons_ne _ hne.symm, ih (n + 1) w hl,
        harith]

/-- Unfolding `np.eye (n+1)` row by row. -/
theorem eyeRow_succ (n i : Nat) :
    eyeRow (n + 1) i = eyeRow n i ++ [if n = i then 1 else 0] := by
  simp [eyeRow, List.range_succ]

/-- Dot products of rows of the identity matrix: `1` exactly on the diagonal
(within bounds), `0` elsewhere. -/
theorem dot_eyeRow (n i j : Nat) :
    dot (eyeRow n i) (eyeRow n j) = if i = j ∧ i < n then 1 else 0 := by
  induction n with
  | zero => simp [eyeRow, dot]
  | succ n ih =>
    have hlen : (eyeRow n i).length = (eyeRow n j).length := by simp [eyeRow]
    have hsplit : dot (eyeRow (n + 1) i) (eyeRow (n + 1) j) =
        dot (eyeRow n i) (eyeRow n j) +
          (if n = i then (1 : ℚ) else 0) * (if n = j then 1 else 0) := by
      rw [eyeRow_succ, eyeRow_succ]
      unfold dot
      rw [List.zipWith_append _ _ _ _ _ hlen, List.sum_append]
      simp
    rw [hsplit, ih]
    rcases eq_or_ne i j with rfl | hij
    · by_cases hin : i < n
      · have hni : n ≠ i := by omega
        have hin' : i < n + 1 := by omega
        simp [hin, hni, hin']
      · by_cases hni : n = i
        · subst hni
          simp [hin]
        · have hin' : ¬ i < n + 1 := by omega
          simp [hin, hni, hin']
    · have h1 : ¬ (i = j ∧ i < n) := fun h => hij h.1
      have h2 : ¬ (i = j ∧ i < n + 1) := fun h => hij h.1
      by_cases hni : n = i
      · subst hni
        have hnj : n ≠ j := hij
        simp [h1, h2, hnj]
      · simp [h1, h2, hni]

/-- C1: for every corpus, the one-hot table assigns each vocabulary word the
standard basis vector at its sorted index, so the vectors are orthonormal:
distinct vocabulary words have dot product 0 and every word's vector has dot
product 1 with itself. -/
theorem one_hot_orthonormal (sentences : List String) (w1 w2 : String)
    (h1 : w1 ∈ vocabulary sentences) (h2 : w2 ∈ vocabulary sentences) :
    ∃ v1 v2 : List ℚ,
      List.lookup w1 (one_hot_vectors (vocabulary sentences)) = some v1 ∧
      List.lookup w2 (one_hot_vectors (vocabulary sentences)) = some v2 ∧
      dot v1 v2 = (if w1 = w2 then 1 else 0) := by
  have hlt : (vocabulary sentences).indexOf w1 < (vocabulary sentences).length :=
    List.indexOf_lt_length.mpr h1
  refine ⟨eyeRow (vocabulary sentences).length ((vocabulary sentences).indexOf w1),
    eyeRow (vocabulary sentences).length ((vocabulary sentences).indexOf w2), ?_, ?_, ?_⟩
  · simpa [one_hot_vectors, List.enum] using
      lookup_enumFrom_map (fun i => eyeRow (vocabulary sentences).length i)
        (vocabulary sentences) 0 w1 h1
  · simpa [one_hot_vectors, List.enum] using
      lookup_enumFrom_map (fun i => eyeRow (vocabulary sentences).length i)
        (vocabulary sentences) 0 w2 h2
  · rw [dot_eyeRow]
    rcases eq_or_ne w1 w2 with rfl | hne
    · simp [hlt]
    · have hidx : (vocabulary sentences).indexOf w1 ≠ (vocabulary sentences).indexOf w2 :=
        fun he => hne ((List.indexOf_inj h1 h2).mp he)
      simp [hne, hidx]

/-- Witness for C1: in the demo corpus, the one-hot vectors of the distinct
vocabulary words "learning" and "deep" have dot product 0. -/
theorem one_hot_orthonormal_witness :
    ∃ v1 v2 : List ℚ,
      List.lookup "learning" (one_hot_vectors (vocabulary demo_corpus)) = some v1 ∧
      List.lookup "deep" (one_hot_vectors (vocabulary demo_corpus)) = some v2 ∧
      dot v1 v2 = (if ("learning" : String) = "deep" then 1 else 0) :=
  one_hot_orthonormal demo_corpus "learning" "deep" (by decide) (by decide)

/-- C2: the tokenizer maps each sentence, in order, to its lowercase
whitespace-split words with no other normalization; the vocabulary is the
set of distinct words across the tokenized sentences presented as a sorted
duplicate-free sequence; and running the tokenizer twice on the same corpus
yields identical results (output is a function of the corpus alone). -/
theorem corpus_tokenizer_contract (sentences : List String) :
    tokenized_sentences sentences =
        sentences.map (fun sentence => pySplit (pyLower sentence)) ∧
    List.Sorted (· ≤ ·) (vocabulary sentences) ∧
    (vocabulary sentences).Nodup ∧
    (∀ w, w ∈ vocabulary sentences ↔ ∃ ts ∈ tokenized_sentences sentences, w ∈ ts) ∧
    (∀ other : List String, other = sentences →
      tokenized_sentences other = tokenized_sentences sentences ∧
      vocabulary other = vocabulary sentences) :=
  ⟨rfl, vocabulary_sorted sentences, vocabulary_nodup sentences,
    mem_vocabulary_iff sentences, fun _ h => by rw [h]; exact ⟨rfl, rfl⟩⟩

/-- Witness for C2 at the demo corpus: the tokenized sentences evaluate to the
expected word lists and the vocabulary is sorted. -/
theorem corpus_tokenizer_contract_witness :
    tokenized_sentences demo_corpus =
      [["i", "love", "natural", "language", "processing"],
       ["deep", "learning", "is", "a", "key", "technology", "for", "ai"]] ∧
    List.Sorted (· ≤ ·) (vocabulary demo_corpus) :=
  ⟨by decide, (corpus_tokenizer_contract demo_corpus).2.1⟩

/-- Counterexample to C3: the scenario corpus ["I love natural language
processing", "Deep learning is a key technology for AI"] has 13 distinct
words, not 12 as claimed. -/
theorem demo_vocabulary_size_not_twelve : ¬ (vocabulary demo_corpus).length = 12 := by
  decide

/-- C3 amended: tokenizing the scenario corpus yields a vocabulary of exactly
13 distinct lowercase words sorted alphabetically (with "AI" lowercased to
"ai"), and one_hot("learning") is a length-13 vector with a single 1 at
index 8, the sorted position of "learning". -/
theorem demo_vocabulary_one_hot :
    vocabulary demo_corpus =
      ["a", "ai", "deep", "for", "i", "is", "key", "language", "learning",
       "love", "natural", "processing", "technology"] ∧
    (vocabulary demo_corpus).length = 13 ∧
    (vocabulary demo_corpus).indexOf "learning" = 8 ∧
    List.lookup "learning" (one_hot_vectors (vocabulary demo_corpus)) =
      some [0, 0, 0, 0, 0, 0, 0, 0, 1, 0, 0, 0, 0] := by
  refine ⟨by decide, by decide, by decide, by decide⟩

/-! ## VectorIndexHarness

Source (vector-search notebook):
`np.random.seed(1234)`, `database = np.random.random((nb, d))`,
`queries = np.random.random((nq, d))`, `index = faiss.IndexHNSWFlat(d, 32)`,
`index.add(database)`, `distances, indices = index.search(queries, k)`.
numpy's seeded generator and faiss's HNSW index are external libraries, not
code of this repository; they are modelled from the spec below.
-/

/-- Modelled from the spec: numpy's seeded generator
(`np.random.seed` / `np.random.random`), which is external to this
repository. The spec requires only that after seeding, outputs are a
reproducible deterministic stream; `stream` abstracts that stream, with
`stream i` the i-th sample drawn after seeding. A matrix of shape
`(rows, cols)` drawn when the generator is at position `start` consumes
`rows * cols` consecutive samples in row-major order. -/
def np_random_matrix (stream : Nat → ℚ) (start rows cols : Nat) : List (List ℚ) :=
  (List.range rows).map (fun r =>
    (List.range cols).map (fun c => stream (start + r * cols + c)))

/-- Source: `database = np.random.random((nb, d))` — drawn first, so it
occupies stream positions `0` to `nb * d - 1`. -/
def database (stream : Nat → ℚ) (nb d : Nat) : List (List ℚ) :=
  np_random_matrix stream 0 nb d

/-- Source: `queries = np.random.random((nq, d))` — drawn immediately after
the database, so it starts at stream position `nb * d`. -/
def queries (stream : Nat → ℚ) (nb nq d : Nat) : List (List ℚ) :=
  np_random_matrix stream (nb * d) nq d

/-- Squared Euclidean distance on equal-length vectors (the L2 metric the
index is built with, in exact arithmetic). -/
def sqDist (u v : List ℚ) : ℚ :=
  (List.zipWith (fun a b => (a - b) ^ 2) u v).sum

/-- Ordering of (database-index, distance) pairs by distance. -/
def distLe (a b : Nat × ℚ) : Prop := a.2 ≤ b.2

instance : DecidableRel distLe := fun a b => inferInstanceAs (Decidable (a.2 ≤ b.2))

instance : IsTotal (Nat × ℚ) distLe := ⟨fun a b => le_total a.2 b.2⟩

instance : IsTrans (Nat × ℚ) distLe := ⟨fun _ _ _ h h' => le_trans h h'⟩

/-- Modelled from the spec: `index.search` on one query (faiss's HNSW search
is external to this repository). Per the spec's NeighborResult contract it
returns, for the query, the (database-index, distance) pairs of the k
nearest database vectors, sorted ascending by distance. -/
def searchOne (db : List (List ℚ)) (q : List ℚ) (k : Nat) : List (Nat × ℚ) :=
  (List.insertionSort distLe (db.enum.map (fun p => (p.1, sqDist q p.2)))).take k

/-- Modelled from the spec: `distances, indices = index.search(queries, k)`,
one NeighborResult row per query. -/
def index_search (db qs : List (List ℚ)) (k : Nat) : List (List (Nat × ℚ)) :=
  qs.map (fun q => searchOne db q k)

/-- The matrix of neighbor indices printed by the harness. -/
def search_indices (db qs : List (List ℚ)) (k : Nat) : List (List Nat) :=
  (index_search db qs k).map (fun row => row.map Prod.fst)

/-- The matrix of neighbor distances printed by the harness. -/
def search_distances (db qs : List (List ℚ)) (k : Nat) : List (List ℚ) :=
  (index_search db qs k).map (fun row => row.map Prod.snd)

/-- One search row has exactly `min k nb` entries. -/
theorem length_searchOne (db : List (List ℚ)) (q : List ℚ) (k : Nat) :
    (searchOne db q k).length = min k db.length := by
  simp [searchOne, (List.perm_insertionSort distLe _).length_eq]

/-- One search row is sorted ascending by distance. -/
theorem sorted_searchOne (db : List (List ℚ)) (q : List ℚ) (k : Nat) :
    (searchOne db q k).Pairwise distLe :=
  List.Pairwise.sublist (List.take_sublist _ _) (List.sorted_insertionSort distLe _)

/-- C4: for every run with `k ≤ nb`, the search step produces an index matrix
and a distance matrix each of shape (nq, k), and within each query's row the
distances are sorted ascending (non-decreasing). -/
theorem index_search_shape_sorted (db qs : List (List ℚ)) (k : Nat)
    (hk : k ≤ db.length) :
    (search_indices db qs k).length = qs.length ∧
    (search_distances db qs k).length = qs.length ∧
    (∀ row ∈ search_indices db qs k, row.length = k) ∧
    (∀ row ∈ search_distances db qs k, row.length = k ∧ row.Sorted (· ≤ ·)) := by
  refine ⟨by simp [search_indices, index_search], by simp [search_distances, index_search],
    ?_, ?_⟩
  · intro row hrow
    simp only [search_indices, index_search, List.mem_map] at hrow
    obtain ⟨r, ⟨q, _, rfl⟩, rfl⟩ := hrow
    simp [length_searchOne, Nat.min_eq_left hk]
  · intro row hrow
    simp only [search_distances, index_search, List.mem_map] at hrow
    obtain ⟨r, ⟨q, _, rfl⟩, rfl⟩ := hrow
    refine ⟨by simp [length_searchOne, Nat.min_eq_left hk], ?_⟩
    exact (sorted_searchOne db q k).map _ (fun a b h => h)

/-- Witness for C4 on a concrete run: a 3-vector database, two queries,
k = 2. -/
theorem index_search_shape_sorted_witness :
    (search_indices [[0], [3], [1]] [[0], [2]] 2).length = 2 ∧
    (search_distances [[0], [3], [1]] [[0], [2]] 2).length = 2 ∧
    (∀ row ∈ search_indices [[0], [3], [1]] [[0], [2]] 2, row.length = 2) ∧
    (∀ row ∈ search_distances [[0], [3], [1]] [[0], [2]] 2,
      row.length = 2 ∧ row.Sorted (· ≤ ·)) :=
  index_search_shape_sorted [[0], [3], [1]] [[0], [2]] 2 (by decide)

/-- Error taxonomy of the index harness (spec section 7). -/
inductive IndexError where
  | DimensionMismatch
  | EmptyDatabaseError
  | InvalidK
deriving DecidableEq

/-- Modelled from the spec: the harness's fallible search entry point — the
dimensionality and emptiness checks live inside faiss, external to this
repository. Per the spec's failure conditions: EmptyDatabaseError when
`nb = 0`; DimensionMismatch when database or query vectors differ from the
index dimensionality `d`; and `k` must not exceed `nb`. -/
def harness_search (d : Nat) (db qs : List (List ℚ)) (k : Nat) :
    Except IndexError (List (List (Nat × ℚ))) :=
  if db.length = 0 then .error .EmptyDatabaseError
  else if ¬ (db.all (fun v => v.length = d) ∧ qs.all (fun q => q.length = d)) then
    .error .DimensionMismatch
  else if db.length < k then .error .InvalidK
  else .ok (index_search db qs k)

/-- C7: the harness fails with EmptyDatabaseError when the database is empty;
fails with DimensionMismatch when (the database being nonempty) the database
or query vectors differ from the index dimensionality; fails when k exceeds
nb; and succeeds otherwise. -/
theorem harness_search_failure_conditions (d : Nat) (db qs : List (List ℚ)) (k : Nat) :
    (db.length = 0 → harness_search d db qs k = .error .EmptyDatabaseError) ∧
    (db.length ≠ 0 →
      ¬ (db.all (fun v => v.length = d) ∧ qs.all (fun q => q.length = d)) →
      harness_search d db qs k = .error .DimensionMismatch) ∧
    (db.length ≠ 0 →
      (db.all (fun v => v.length = d) ∧ qs.all (fun q => q.length = d)) →
      db.length < k → harness_search d db qs k = .error .InvalidK) ∧
    (db.length ≠ 0 →
      (db.all (fun v => v.length = d) ∧ qs.all (fun q => q.length = d)) →
      k ≤ db.length → harness_search d db qs k = .ok (index_search db qs k)) := by
  refine ⟨fun h0 => ?_, fun h0 hdim => ?_, fun h0 hdim hk => ?_, fun h0 hdim hk => ?_⟩
  · simp only [harness_search, if_pos h0]
  · simp only [harness_search]
    rw [if_neg h0, if_pos hdim]
  · simp only [harness_search]
    rw [if_neg h0, if_neg (not_not_intro hdim), if_pos hk]
  · simp only [harness_search]
    rw [if_neg h0, if_neg (not_not_intro hdim), if_neg (Nat.not_lt.mpr hk)]

/-- Witness for C7: a 2-dimensional index over one database vector rejects a
1-dimensional query with DimensionMismatch, an empty database yields
EmptyDatabaseError, and k = 2 over one vector is rejected. -/
theorem harness_search_failure_conditions_witness :
    harness_search 2 [] [[0, 0]] 1 = .error .EmptyDatabaseError ∧
    harness_search 2 [[0, 0]] [[1]] 1 = .error .DimensionMismatch ∧
    harness_search 2 [[0, 0]] [[1, 1]] 2 = .error .InvalidK :=
  ⟨(harness_search_failure_conditions 2 [] [[0, 0]] 1).1 (by decide),
    (harness_search_failure_conditions 2 [[0, 0]] [[1]] 1).2.1 (by decide) (by decide),
    (harness_search_failure_conditions 2 [[0, 0]] [[1, 1]] 2).2.2.1 (by decide) (by decide)
      (by decide)⟩

/-- First entry of the first row of a matrix. -/
def elem00 (m : List (List ℚ)) : ℚ := (m.headD []).headD 0

/-- C10: the database is drawn from the seeded stream before the query set —
`queries` starts at stream position `nb * d` — so the query set depends on
`nb` and `d` as well as the seed and `nq`: with the stream injective (no
repeated samples), runs differing only in `nb` produce different query
vectors, and runs differing only in `d` produce query vectors of different
lengths. -/
theorem queries_drawn_after_database (stream : Nat → ℚ)
    (hinj : Function.Injective stream) (nb nb' nq d d' : Nat)
    (hnq : 0 < nq) (hd : 0 < d) :
    database stream nb d = np_random_matrix stream 0 nb d ∧
    queries stream nb nq d = np_random_matrix stream (nb * d) nq d ∧
    (nb ≠ nb' → queries stream nb nq d ≠ queries stream nb' nq d) ∧
    (d ≠ d' → queries stream nb nq d ≠ queries stream nb nq d') := by
  refine ⟨rfl, rfl, fun hnb heq => ?_, fun hdd heq => ?_⟩
  · have h00 : ∀ m : Nat, elem00 (queries stream m nq d) = stream (m * d) := by
      intro m
      obtain ⟨nq', rfl⟩ := Nat.exists_eq_succ_of_ne_zero (Nat.pos_iff_ne_zero.mp hnq)
      obtain ⟨d', rfl⟩ := Nat.exists_eq_succ_of_ne_zero (Nat.pos_iff_ne_zero.mp hd)
      simp [elem00, queries, np_random_matrix, List.range_succ_eq_map]
    have : stream (nb * d) = stream (nb' * d) := by
      rw [← h00 nb, ← h00 nb', heq]
    exact hnb (Nat.eq_of_mul_eq_mul_right hd (hinj this))
  · have hlen : ∀ m : Nat, ((queries stream nb nq m).headD []).length = m := by
      intro m
      obtain ⟨nq', rfl⟩ := Nat.exists_eq_succ_of_ne_zero (Nat.pos_iff_ne_zero.mp hnq)
      simp [queries, np_random_matrix, List.range_succ_eq_map]
    have : d = d' := by rw [← hlen d, ← hlen d', heq]
    exact hdd this

/-- Witness for C10 with the identity-like stream `i ↦ i`: nb = 1 versus
nb' = 2 (nq = 1, d = 1) gives different query sets, and d = 1 versus d' = 2
gives different query sets. -/
theorem queries_drawn_after_database_witness :
    database (fun i => (i : ℚ)) 1 1 = np_random_matrix (fun i => (i : ℚ)) 0 1 1 ∧
    queries (fun i => (i : ℚ)) 1 1 1 = np_random_matrix (fun i => (i : ℚ)) 1 1 1 ∧
    ((1 : Nat) ≠ 2 → queries (fun i => (i : ℚ)) 1 1 1 ≠ queries (fun i => (i : ℚ)) 2 1 1) ∧
    ((1 : Nat) ≠ 2 → queries (fun i => (i : ℚ)) 1 1 1 ≠ queries (fun i => (i : ℚ)) 1 1 2) :=
  queries_drawn_after_database (fun i => (i : ℚ)) Nat.cast_injective 1 2 1 1 2
    (by decide) (by decide)

/-! ## EmbeddingProviders: Word2Vec and GloVe tables

Source: `word2vec_model = Word2Vec(sentences=tokenized_sentences, vector_size=10, ...)`,
`word2vec_vectors = {word: word2vec_model.wv[word] for word in vocabulary}`,
`glove_vectors = {word: np.random.rand(10) for word in vocabulary}`.
gensim's training and numpy's generator are external libraries; they are
modelled from the spec below.
-/

/-- The configured embedding dimensionality of the reference harness
(`vector_size=10` for Word2Vec, `np.random.rand(10)` for the GloVe
placeholder). -/
def embedding_dim : Nat := 10

/-- Modelled from the spec:
`word2vec_vectors = {word: word2vec_model.wv[word] for word in vocabulary}`.
The trained model's keyed vectors `wv` come from the external gensim
training, abstracted as a map from word to vector; the repository's dict
comprehension looks every vocabulary word up in it. -/
def word2vec_vectors (wv : String → List ℚ) (vocab : List String) :
    List (String × List ℚ) :=
  vocab.map (fun word => (word, wv word))

/-- Modelled from the spec:
`glove_vectors = {word: np.random.rand(10) for word in vocabulary}` — the
acknowledged placeholder draws one fresh vector from the external generator
per vocabulary word in iteration order; `rand i` abstracts the vector drawn
at step `i`. -/
def glove_vectors (rand : Nat → List ℚ) (vocab : List String) :
    List (String × List ℚ) :=
  vocab.enum.map (fun p => (p.2, rand p.1))

/-- Looking a word up in the table built by mapping that word to a computed
value finds the computed value. -/
theorem lookup_map_self {β : Type} (g : String → β) (l : List String) :
    ∀ w ∈ l, List.lookup w (l.map (fun a => (a, g a))) = some (g w) := by
  induction l with
  | nil => intro w h; cases h
  | cons a l ih =>
    intro w h
    rcases eq_or_ne w a with rfl | hne
    · simp [List.lookup]
    · have hl : w ∈ l := (List.mem_cons.mp h).resolve_left hne
      have hba : (w == a) = false := beq_eq_false_iff_ne.mpr hne
      simp [List.lookup, hba, ih w hl]

/-- C6: for every corpus and any external model and generator that produce
vectors of the configured dimensionality, the word2vec and glove tables each
contain an entry for every vocabulary word (no missing keys), and every
vector stored in either table has exactly the configured dimensionality
(10 in the reference harness). -/
theorem embedding_tables_total (sentences : List String)
    (wv : String → List ℚ) (rand : Nat → List ℚ)
    (hwv : ∀ w, (wv w).length = embedding_dim)
    (hrand : ∀ i, (rand i).length = embedding_dim) :
    (∀ w ∈ vocabulary sentences,
      ∃ v, List.lookup w (word2vec_vectors wv (vocabulary sentences)) = some v ∧
        v.length = embedding_dim) ∧
    (∀ w ∈ vocabulary sentences,
      ∃ v, List.lookup w (glove_vectors rand (vocabulary sentences)) = some v ∧
        v.length = embedding_dim) ∧
    (∀ p ∈ word2vec_vectors wv (vocabulary sentences), p.2.length = embedding_dim) ∧
    (∀ p ∈ glove_vectors rand (vocabulary sentences), p.2.length = embedding_dim) := by
  refine ⟨fun w hw => ?_, fun w hw => ?_, fun p hp => ?_, fun p hp => ?_⟩
  · exact ⟨wv w, lookup_map_self wv (vocabulary sentences) w hw, hwv w⟩
  · refine ⟨rand ((vocabulary sentences).indexOf w), ?_, hrand _⟩
    simpa [glove_vectors, List.enum] using
      lookup_enumFrom_map rand (vocabulary sentences) 0 w hw
  · obtain ⟨w, _, rfl⟩ := List.mem_map.mp hp
    exact hwv w
  · obtain ⟨q, _, rfl⟩ := List.mem_map.mp hp
    exact hrand q.1

/-- Witness for C6 at the demo corpus with a model and generator returning
all-zero vectors of length 10. -/
theorem embedding_tables_total_witness :
    (∀ w ∈ vocabulary demo_corpus,
      ∃ v, List.lookup w (word2vec_vectors (fun _ => List.replicate 10 0)
        (vocabulary demo_corpus)) = some v ∧ v.length = embedding_dim) ∧
    (∀ w ∈ vocabulary demo_corpus,
      ∃ v, List.lookup w (glove_vectors (fun _ => List.replicate 10 0)
        (vocabulary demo_corpus)) = some v ∧ v.length = embedding_dim) ∧
    (∀ p ∈ word2vec_vectors (fun _ => List.replicate 10 0) (vocabulary demo_corpus),
      p.2.length = embedding_dim) ∧
    (∀ p ∈ glove_vectors (fun _ => List.replicate 10 0) (vocabulary demo_corpus),
      p.2.length = embedding_dim) :=
  embedding_tables_total demo_corpus (fun _ => List.replicate 10 0)
    (fun _ => List.replicate 10 0) (fun _ => rfl) (fun _ => rfl)

/-! ## Failure isolation of the embedding methods -/

/-- Error taxonomy of the embedding providers (spec section 7). -/
inductive EmbedError where
  | ModelUnavailable
  | AuthenticationError
  | NetworkError
  | RateLimitExceeded
deriving DecidableEq

/-- Modelled from the spec: `hosted_embed` — the hosted call
(`AzureOpenAI(api_key=os.getenv("AZURE_OPENAI_API_KEY"), ...,
azure_endpoint=os.getenv("AZURE_OPENAI_ENDPOINT"))` followed by
`client.embeddings.create(...)`) delegates to an external client. Per the
spec, absent credentials (an environment variable `os.getenv` returns none
for) must surface as AuthenticationError, not a crash; with credentials
present the external call itself decides the outcome. -/
def hosted_embed (apiKey endpoint : Option String)
    (call : String → Except EmbedError (List ℚ)) (sentence : String) :
    Except EmbedError (List ℚ) :=
  match apiKey, endpoint with
  | some _, some _ => call sentence
  | _, _ => .error .AuthenticationError

/-- Modelled from the spec: the report step. Every method contributes a row
built from its own outcome alone; a failed method's row is marked `none`
instead of aborting the report. -/
def embedding_report {α : Type} (results : List (String × Except EmbedError α)) :
    List (String × Option α) :=
  results.map (fun p => (p.1, p.2.toOption))

/-- C8: the report keeps one row per method; row `j` is a function of method
`j`'s own outcome only (so a failure of one method never prevents the other
methods' rows: it merely marks the failed row `none`); and missing
credentials surface as AuthenticationError rather than a crash. -/
theorem embedding_failures_isolated {α : Type} :
    (∀ results : List (String × Except EmbedError α),
      (embedding_report results).length = results.length) ∧
    (∀ (results : List (String × Except EmbedError α)) (i : Nat),
      (embedding_report results)[i]? =
        (results[i]?).map (fun p => (p.1, p.2.toOption))) ∧
    (∀ (rs1 rs2 : List (String × Except EmbedError α)) (j : Nat),
      rs1[j]? = rs2[j]? →
        (embedding_report rs1)[j]? = (embedding_report rs2)[j]?) ∧
    (∀ endpoint call sentence,
      hosted_embed none endpoint call sentence = .error .AuthenticationError) ∧
    (∀ apiKey call sentence,
      hosted_embed apiKey none call sentence = .error .AuthenticationError) := by
  refine ⟨fun results => by simp [embedding_report],
    fun results i => by simp [embedding_report], fun rs1 rs2 j h => ?_, ?_, ?_⟩
  · simp [embedding_report, h]
  · intro endpoint call sentence
    cases endpoint <;> rfl
  · intro apiKey call sentence
    cases apiKey <;> rfl

/-- Witness for C8: a concrete report in which BERT fails with
ModelUnavailable still has a row for every method, and the hosted call with
a missing API key returns AuthenticationError. -/
theorem embedding_failures_isolated_witness :
    (embedding_report [("one_hot", Except.ok [(1 : ℚ)]),
      ("bert", Except.error EmbedError.ModelUnavailable),
      ("openai", Except.ok [(2 : ℚ)])]).length = 3 ∧
    hosted_embed none (some "https://endpoint") (fun _ => Except.ok [])
      "Deep learning is a key technology for AI" =
        Except.error EmbedError.AuthenticationError :=
  ⟨(@embedding_failures_isolated (List ℚ)).1 _,
    (@embedding_failures_isolated (List ℚ)).2.2.2.1 (some "https://endpoint") _ _⟩

/-! ## Token well-formedness -/

/-- Valid code points survive the `Char.ofNat` round trip. -/
theorem char_toNat_ofNat {n : Nat} (h : n.isValidChar) : (Char.ofNat n).toNat = n := by
  rw [Char.ofNat, dif_pos h]
  rfl

/-- Comparison of characters is comparison of their code points. -/
theorem char_le_iff_toNat {a b : Char} : a ≤ b ↔ a.toNat ≤ b.toNat := by
  rw [Char.le_def, UInt32.le_def, BitVec.le_def]
  exact Iff.rfl

/-- The result of `pyLowerChar` is never an uppercase ASCII letter. -/
theorem pyLowerChar_not_upper (c : Char) :
    ¬ ('A' ≤ pyLowerChar c ∧ pyLowerChar c ≤ 'Z') := by
  unfold pyLowerChar
  by_cases h : 'A' ≤ c ∧ c ≤ 'Z'
  · rw [if_pos h]
    have h1 : 65 ≤ c.toNat := char_le_iff_toNat.mp h.1
    have h2 : c.toNat ≤ 90 := char_le_iff_toNat.mp h.2
    have hv : (c.toNat + 32).isValidChar := Or.inl (by omega)
    intro hcon
    have hle : (Char.ofNat (c.toNat + 32)).toNat ≤ 90 := char_le_iff_toNat.mp hcon.2
    rw [char_toNat_ofNat hv] at hle
    omega
  · rw [if_neg h]
    exact h

/-- `pyLowerChar` is idempotent: its output is left unchanged by a second
application. -/
theorem pyLowerChar_idem (c : Char) :
    pyLowerChar (pyLowerChar c) = pyLowerChar c := by
  have h := pyLowerChar_not_upper c
  conv_lhs => rw [pyLowerChar]
  rw [if_neg h]

/-- Every character of a lowered string is a `pyLowerChar` image. -/
theorem mem_pyLower_data {s : String} {c : Char} (h : c ∈ (pyLower s).data) :
    ∃ x, c = pyLowerChar x := by
  have h' : c ∈ s.data.map pyLowerChar := h
  obtain ⟨x, -, rfl⟩ := List.mem_map.mp h'
  exact ⟨x, rfl⟩

/-- Every word produced by the split scanner is nonempty, and each of its
characters is a non-whitespace character drawn from the input (or from the
pending fragment). -/
theorem splitCore_wellformed :
    ∀ (cs acc : List Char), (∀ c ∈ acc, pyIsSpace c = false) →
      ∀ t ∈ splitCore cs acc,
        t ≠ [] ∧ ∀ c ∈ t, pyIsSpace c = false ∧ (c ∈ cs ∨ c ∈ acc) := by
  intro cs
  induction cs with
  | nil =>
    intro acc hacc t ht
    cases acc with
    | nil => simp [splitCore] at ht
    | cons a as =>
      simp only [splitCore, List.isEmpty_cons, Bool.false_eq_true, if_false,
        List.mem_singleton] at ht
      subst ht
      refine ⟨by simp, fun c hc => ?_⟩
      have hc' : c ∈ a :: as := List.mem_reverse.mp hc
      exact ⟨hacc c hc', Or.inr hc'⟩
  | cons c cs ih =>
    intro acc hacc t ht
    simp only [splitCore] at ht
    by_cases hsp : pyIsSpace c
    · rw [if_pos hsp] at ht
      by_cases hemp : acc.isEmpty
      · rw [if_pos hemp] at ht
        obtain ⟨hne, hrest⟩ := ih [] (fun x hx => absurd hx (List.not_mem_nil x)) t ht
        exact ⟨hne, fun x hx => ⟨(hrest x hx).1,
          Or.inl (List.mem_cons_of_mem c
            ((hrest x hx).2.resolve_right (List.not_mem_nil x)))⟩⟩
      · rw [if_neg hemp] at ht
        rcases List.mem_cons.mp ht with rfl | ht'
        · have hne : acc ≠ [] := fun h => hemp (by simp [h])
          refine ⟨by simpa using hne, fun x hx => ?_⟩
          have hx' : x ∈ acc := List.mem_reverse.mp hx
          exact ⟨hacc x hx', Or.inr hx'⟩
        · obtain ⟨hne, hrest⟩ := ih [] (fun x hx => absurd hx (List.not_mem_nil x)) t ht'
          exact ⟨hne, fun x hx => ⟨(hrest x hx).1,
            Or.inl (List.mem_cons_of_mem c
              ((hrest x hx).2.resolve_right (List.not_mem_nil x)))⟩⟩
    · rw [if_neg hsp] at ht
      have hspf : pyIsSpace c = false := by simpa using hsp
      have hacc' : ∀ x ∈ c :: acc, pyIsSpace x = false := by
        intro x hx
        rcases List.mem_cons.mp hx with rfl | hx'
        · exact hspf
        · exact hacc x hx'
      obtain ⟨hne, hrest⟩ := ih (c :: acc) hacc' t ht
      refine ⟨hne, fun x hx => ⟨(hrest x hx).1, ?_⟩⟩
      rcases (hrest x hx).2 with hcs | hca
      · exact Or.inl (List.mem_cons_of_mem c hcs)
      · rcases List.mem_cons.mp hca with rfl | hx'
        · exact Or.inl (List.mem_cons_self x cs)
        · exact Or.inr hx'

/-- Every word of `pySplit s` is nonempty and consists of non-whitespace
characters of `s`. -/
theorem mem_pySplit (s : String) (w : String) (hw : w ∈ pySplit s) :
    w ≠ "" ∧ ∀ c ∈ w.data, pyIsSpace c = false ∧ c ∈ s.data := by
  obtain ⟨t, ht, rfl⟩ := List.mem_map.mp hw
  obtain ⟨hne, hrest⟩ :=
    splitCore_wellformed s.data [] (fun x hx => absurd hx (List.not_mem_nil x)) t ht
  refine ⟨fun h => hne (by simpa using congrArg String.data h), fun c hc => ?_⟩
  have h := hrest c hc
  exact ⟨h.1, h.2.resolve_right (List.not_mem_nil c)⟩

/-- C9: every vocabulary entry (hence every token the tokenizer produces) is
a nonempty string containing no whitespace and no uppercase A–Z character,
and lowercasing it again is the identity — because lowercasing is applied to
the sentence before whitespace splitting, and splitting discards empty
fragments. -/
theorem vocabulary_tokens_wellformed (sentences : List String) (w : String)
    (hw : w ∈ vocabulary sentences) :
    w ≠ "" ∧ (∀ c ∈ w.data, pyIsSpace c = false) ∧
    (∀ c ∈ w.data, ¬ ('A' ≤ c ∧ c ≤ 'Z')) ∧ pyLower w = w := by
  obtain ⟨ts, hts, hwts⟩ := (mem_vocabulary_iff sentences w).mp hw
  obtain ⟨s, -, rfl⟩ := List.mem_map.mp hts
  obtain ⟨hne, hchar⟩ := mem_pySplit (pyLower s) w hwts
  have hlow : ∀ c ∈ w.data, pyLowerChar c = c ∧ ¬ ('A' ≤ c ∧ c ≤ 'Z') := by
    intro c hc
    obtain ⟨x, rfl⟩ := mem_pyLower_data (hchar c hc).2
    exact ⟨pyLowerChar_idem x, pyLowerChar_not_upper x⟩
  refine ⟨hne, fun c hc => (hchar c hc).1, fun c hc => (hlow c hc).2, ?_⟩
  show String.mk (w.data.map pyLowerChar) = w
  have hmap : w.data.map pyLowerChar = w.data := by
    conv_rhs => rw [← List.map_id w.data]
    exact List.map_congr_left (fun a ha => (hlow a ha).1)
  rw [hmap]

/-- Witness for C9 at the vocabulary word "learning" of the demo corpus. -/
theorem vocabulary_tokens_wellformed_witness :
    ("learning" : String) ≠ "" ∧
    (∀ c ∈ ("learning" : String).data, pyIsSpace c = false) ∧
    (∀ c ∈ ("learning" : String).data, ¬ ('A' ≤ c ∧ c ≤ 'Z')) ∧
    pyLower "learning" = "learning" :=
  vocabulary_tokens_wellformed demo_corpus "learning" (by decide)

end DiskANNDemo
